import Mathlib

/-!
Verification of the comment-investment settlement and points-ledger core of
the Hyperverge-Hackathon-2025 repository (`sensai-ai/src/api/db/hub.py`), and
of the moderation collaborator (`sensai-ai/src/api/services/moderation.py`).

The database is modelled as an explicit state (lists of rows); each async
database function becomes a pure function from state to state.  SQL statements
are embedded row-by-row: `SELECT ... WHERE id = ?` with `fetch_one` becomes
`List.find?`, `INSERT` appends, `UPDATE ... WHERE` maps over rows, and
`INSERT OR IGNORE` appends only when no matching row exists.  Fallible Python
code (raising `ValueError`) becomes `Except String`.  Timestamps are modelled
as natural numbers ordered chronologically (the code compares ISO timestamp
strings, whose lexicographic order is the chronological order).
-/

namespace Hub

/-- A row of the posts table, restricted to the columns the investment code
reads: `id`, `parent_id`, `user_id`, `moderation_status`, `views`,
`created_at`.  `moderation_status` is nullable (`none` models SQL NULL);
`views` is stored already coalesced to 0 as the queries always read
`COALESCE(views, 0)`. -/
structure Post where
  id : Nat
  parent_id : Option Nat
  user_id : Nat
  moderation_status : Option String
  views : Nat
  created_at : Nat
  deriving Repr, DecidableEq

/-- A row of the post_votes table: `vote_type` is the string 'up' or 'down'
(any other value contributes 0 to the score, as in the SQL CASE). -/
structure Vote where
  post_id : Nat
  user_id : Nat
  vote_type : String
  deriving Repr, DecidableEq

/-- A row of the user_points table: `(user_id, balance)`. -/
structure BalanceRow where
  user_id : Nat
  balance : Int
  deriving Repr, DecidableEq

/-- A row of the user_points_ledger table, restricted to the columns the
investment code writes: user, signed delta, reason, optional comment
reference and optional investment reference. -/
structure LedgerEntry where
  user_id : Nat
  delta : Int
  reason : String
  ref_comment_id : Option Nat
  investment_id : Option Nat
  deriving Repr, DecidableEq

/-- A row of the comment_investments table. `payout_amount` and `settled_at`
are NULL until settlement. -/
structure Investment where
  id : Nat
  investor_user_id : Nat
  comment_id : Nat
  post_id : Nat
  amount : Int
  status : String
  settle_at : Nat
  payout_amount : Option Int
  settled_at : Option Nat
  deriving Repr, DecidableEq

/-- The database state: the tables touched by the investment core, plus the
autoincrement counter for investment ids. -/
structure DBState where
  posts : List Post
  votes : List Vote
  balances : List BalanceRow
  ledger : List LedgerEntry
  investments : List Investment
  next_investment_id : Nat
  deriving Repr, DecidableEq

/-- The configuration constants imported from `api.config`
(`INVEST_MIN_POINTS`, `INVEST_PAYOUT_MULTIPLIER`, `INVEST_WINDOW_DAYS`). -/
structure Config where
  INVEST_MIN_POINTS : Int
  INVEST_PAYOUT_MULTIPLIER : Int
  INVEST_WINDOW_DAYS : Nat
  deriving Repr, DecidableEq

/-- The SQL CASE in the settlement query:
`CASE WHEN pv.vote_type='up' THEN 1 WHEN pv.vote_type='down' THEN -1 ELSE 0 END`. -/
def voteValue (vote_type : String) : Int :=
  if vote_type = "up" then 1 else if vote_type = "down" then -1 else 0

/-- The aggregate score of a post:
`COALESCE(SUM(CASE ...), 0)` over the votes joined on `pv.post_id = p.id`. -/
def postScore (votes : List Vote) (post_id : Nat) : Int :=
  ((votes.filter (fun v => v.post_id == post_id)).map
    (fun v => voteValue v.vote_type)).sum

/-- The moderation test used throughout the code:
`moderation_status in ('flagged','removed')` (SQL NULL / Python None is not
in the tuple, so `none` yields `false`). -/
def moderatedAway (moderation_status : Option String) : Bool :=
  moderation_status == some "flagged" || moderation_status == some "removed"

/-- `SELECT ... FROM posts WHERE id = ?` with `fetch_one`. -/
def findPost (st : DBState) (post_id : Nat) : Option Post :=
  st.posts.find? (fun p => p.id == post_id)

/-- `SELECT ... FROM comment_investments WHERE id = ?` with `fetch_one`. -/
def findInvestment (st : DBState) (investment_id : Nat) : Option Investment :=
  st.investments.find? (fun i => i.id == investment_id)

/-- Modelled from the spec: `get_user_points_balance` lives in
`api/db/user.py`, which is not part of the sources; per the spec,
`get_balance(user_id)` returns the user's current balance, defaulting to 0
when no balance row exists. -/
def get_user_points_balance (st : DBState) (user_id : Nat) : Int :=
  match st.balances.find? (fun b => b.user_id == user_id) with
  | some b => b.balance
  | none => 0

/-- The sum of all ledger deltas recorded for a user: the quantity the
balance invariant compares against the balance row. -/
def ledgerSum (st : DBState) (user_id : Nat) : Int :=
  ((st.ledger.filter (fun e => e.user_id == user_id)).map
    (fun e => e.delta)).sum

/-- The ledger/balance consistency invariant of the spec: every user's
balance equals the sum of that user's ledger deltas (a user with no balance
row has balance 0 and, vacuously, an empty ledger sum). -/
def BalanceInvariant (st : DBState) : Prop :=
  ∀ user_id : Nat, get_user_points_balance st user_id = ledgerSum st user_id

/-- `INSERT OR IGNORE INTO user_points (user_id, balance) VALUES (?, 0)`:
append a zero-balance row unless one already exists for the user. -/
def ensureBalanceRow (st : DBState) (user_id : Nat) : DBState :=
  match st.balances.find? (fun b => b.user_id == user_id) with
  | some _ => st
  | none => { st with balances := st.balances ++ [⟨user_id, 0⟩] }

/-- `UPDATE user_points SET balance = balance + ? WHERE user_id = ?`
(the code subtracts on invest and adds on payout; both are this update with
the appropriate sign on `delta`). -/
def addToBalance (st : DBState) (user_id : Nat) (delta : Int) : DBState :=
  { st with balances :=
      (st.balances.map
        (fun b => if b.user_id == user_id
                  then { b with balance := b.balance + delta } else b)) }

/-- The summary dict returned by a successful `invest_in_comment`. -/
structure InvestSummary where
  investor_user_id : Nat
  comment_id : Nat
  post_id : Nat
  amount : Int
  status : String
  settle_at : Nat
  deriving Repr, DecidableEq

/-- `invest_in_comment(investor_user_id, comment_id, amount)` from
`api/db/hub.py` lines 101-156.  `now` stands for `datetime.utcnow()`;
`settle_at` is `now + INVEST_WINDOW_DAYS` (days are the time unit).
Every `raise ValueError` becomes `Except.error`; the four SQL commands of
the atomic batch become the state updates, in order. -/
def invest_in_comment (cfg : Config) (st : DBState)
    (investor_user_id comment_id : Nat) (amount : Int) (now : Nat) :
    Except String (DBState × InvestSummary) :=
  if amount < cfg.INVEST_MIN_POINTS then
    .error "Amount below minimum"
  else
    match findPost st comment_id with
    | none => .error "Comment not found"
    | some row =>
      match row.parent_id with
      | none => .error "Not a comment"
      | some parent_id =>
        if row.user_id == investor_user_id then
          .error "Cannot invest in own comment"
        else if moderatedAway row.moderation_status then
          .error "Comment not eligible"
        else if get_user_points_balance st investor_user_id < amount then
          .error "Insufficient balance"
        else
          let settle_at := now + cfg.INVEST_WINDOW_DAYS
          let inv : Investment :=
            ⟨st.next_investment_id, investor_user_id, comment_id, parent_id,
             amount, "pending", settle_at, none, none⟩
          let st1 := { st with
            investments := st.investments ++ [inv],
            next_investment_id := st.next_investment_id + 1 }
          let st2 := ensureBalanceRow st1 investor_user_id
          let st3 := addToBalance st2 investor_user_id (-amount)
          let st4 := { st3 with ledger := st3.ledger ++
            [⟨investor_user_id, -amount, "invest_stake", some comment_id, none⟩] }
          .ok (st4,
            ⟨investor_user_id, comment_id, parent_id, amount, "pending", settle_at⟩)

/-- A row of the settlement ranking query: post id, aggregate vote score,
coalesced view count, creation time. -/
structure RankRow where
  id : Nat
  score : Int
  views : Nat
  created_at : Nat
  deriving Repr, DecidableEq

/-- The sibling query of `settle_investment` (lines 180-192): all posts with
`parent_id = post_id` whose moderation status is NULL or not in
('flagged','removed'), each with its aggregate score, coalesced views and
creation time. -/
def eligibleSiblings (st : DBState) (post_id : Nat) : List RankRow :=
  (st.posts.filter (fun p =>
      p.parent_id == some post_id && !(moderatedAway p.moderation_status))).map
    (fun p => ⟨p.id, postScore st.votes p.id, p.views, p.created_at⟩)

/-- Strict comparison for the sort key `(-score, -views, created_at)`:
`a` precedes `b` when `a` has strictly higher score, or equal score and
strictly higher views, or equal score and views and strictly earlier
creation time. -/
def scoreKeyLt (a b : RankRow) : Bool :=
  b.score < a.score ||
    (a.score == b.score &&
      (decide (b.views < a.views) ||
        (a.views == b.views && decide (a.created_at < b.created_at))))

/-- Strict comparison for the sort key `(-views, -score, created_at)`. -/
def viewsKeyLt (a b : RankRow) : Bool :=
  decide (b.views < a.views) ||
    (a.views == b.views &&
      (decide (b.score < a.score) ||
        (a.score == b.score && decide (a.created_at < b.created_at))))

/-- `sorted(rows, key=...)[0]` for a stable sort: the first element of the
list that is minimal for the strict comparison `lt` (Python's sort is
stable, so among fully tied rows the earliest in query order is kept). -/
def pickTop (lt : RankRow → RankRow → Bool) : List RankRow → Option RankRow
  | [] => none
  | r :: rs => some (rs.foldl (fun best x => if lt x best then x else best) r)

/-- The summary dict returned by `settle_investment`.  The early-return on a
non-pending investment carries only the id and status, so `payout` and `won`
are optional. -/
structure SettleSummary where
  investment_id : Nat
  status : String
  payout : Option Int
  won : Option Bool
  deriving Repr, DecidableEq

/-- `UPDATE comment_investments SET status = ?, payout_amount = ?,
settled_at = CURRENT_TIMESTAMP WHERE id = ?`. -/
def updateInvestmentRow (st : DBState) (investment_id : Nat)
    (new_status : String) (payout : Int) (now : Nat) : DBState :=
  { st with investments :=
      (st.investments.map
        (fun i => if i.id == investment_id
                  then { i with status := new_status,
                                payout_amount := some payout,
                                settled_at := some now } else i)) }

/-- The `moderated_away` local of `settle_investment` (line 177):
`comment_row and comment_row[0] in ('flagged','removed')` — a missing
comment row means not moderated away. -/
def settleModeratedAway (st : DBState) (comment_id : Nat) : Bool :=
  match findPost st comment_id with
  | some comment_row => moderatedAway comment_row.moderation_status
  | none => false

/-- The `is_top_score` local of `settle_investment` (lines 196, 199, 202):
the staked comment is the head of the sibling rows sorted by
`(-score, -views, created_at)`; `false` on an empty sibling set. -/
def isTopScore (st : DBState) (post_id comment_id : Nat) : Bool :=
  match pickTop scoreKeyLt (eligibleSiblings st post_id) with
  | some top => top.id == comment_id
  | none => false

/-- The `is_top_views` local of `settle_investment` (lines 198, 200, 203). -/
def isTopViews (st : DBState) (post_id comment_id : Nat) : Bool :=
  match pickTop viewsKeyLt (eligibleSiblings st post_id) with
  | some top => top.id == comment_id
  | none => false

/-- The `won` local of `settle_investment` (line 205):
`(not moderated_away) and is_top_score and is_top_views`. -/
def settleWon (st : DBState) (post_id comment_id : Nat) : Bool :=
  !settleModeratedAway st comment_id &&
    isTopScore st post_id comment_id && isTopViews st post_id comment_id

/-- `settle_investment(investment_id)` from `api/db/hub.py` lines 159-245.
`now` stands for `CURRENT_TIMESTAMP` at settlement time. -/
def settle_investment (cfg : Config) (st : DBState)
    (investment_id : Nat) (now : Nat) :
    Except String (DBState × SettleSummary) :=
  match findInvestment st investment_id with
  | none => .error "Investment not found"
  | some inv =>
    if inv.status != "pending" then
      .ok (st, ⟨investment_id, inv.status, none, none⟩)
    else
      let won := settleWon st inv.post_id inv.comment_id
      let payout := if won then inv.amount * cfg.INVEST_PAYOUT_MULTIPLIER else 0
      let new_status := if won then "won" else "lost"
      let st1 := updateInvestmentRow st investment_id new_status payout now
      let st2 :=
        if won && payout > 0 then
          let sta := ensureBalanceRow st1 inv.investor_user_id
          let stb := addToBalance sta inv.investor_user_id payout
          { stb with ledger := stb.ledger ++
            [⟨inv.investor_user_id, payout, "invest_payout",
              some inv.comment_id, some investment_id⟩] }
        else st1
      .ok (st2, ⟨investment_id, new_status, some payout, some won⟩)

/-- Configuration used for concrete examples: minimum stake 10, payout
multiplier 2, settlement window 7 days. -/
def exCfg : Config := ⟨10, 2, 7⟩

/-- The spec's worked example, as a database state: a parent post (id 1) with
two sibling comments A (id 2: score 5, views 10, earlier) and B (id 3:
score 5, views 20, later), five up-votes each, and one pending investment on
each comment (investment 1 on A by user 20, investment 2 on B by user 21). -/
def exState : DBState :=
  { posts := [⟨1, none, 9, some "approved", 100, 0⟩,
              ⟨2, some 1, 10, some "approved", 10, 1⟩,
              ⟨3, some 1, 11, some "approved", 20, 2⟩],
    votes := [⟨2, 100, "up"⟩, ⟨2, 101, "up"⟩, ⟨2, 102, "up"⟩, ⟨2, 103, "up"⟩,
              ⟨2, 104, "up"⟩, ⟨3, 100, "up"⟩, ⟨3, 101, "up"⟩, ⟨3, 102, "up"⟩,
              ⟨3, 103, "up"⟩, ⟨3, 104, "up"⟩],
    balances := [⟨20, 50⟩, ⟨21, 50⟩],
    ledger := [],
    investments := [⟨1, 20, 2, 1, 10, "pending", 30, none, none⟩,
                    ⟨2, 21, 3, 1, 10, "pending", 30, none, none⟩],
    next_investment_id := 3 }

/-- A state with a parent post (id 1) whose only non-moderated child is the
comment with id 2 (score -1 from a down-vote, zero views), plus a flagged
sibling (id 3), and a pending investment (id 1) on comment 2 by user 20. -/
def exLoneChildState : DBState :=
  { posts := [⟨1, none, 9, some "approved", 100, 0⟩,
              ⟨2, some 1, 10, some "approved", 0, 1⟩,
              ⟨3, some 1, 11, some "flagged", 999, 2⟩],
    votes := [⟨2, 100, "down"⟩],
    balances := [⟨20, 50⟩],
    ledger := [],
    investments := [⟨1, 20, 2, 1, 10, "pending", 30, none, none⟩],
    next_investment_id := 2 }

/-- A state whose parent post (id 1) has no eligible children at all: its
only child (id 2) is removed, and investment 1 (on that child) is pending.
Investment 2 is already settled (`status = "won"`). -/
def exEmptySiblingState : DBState :=
  { posts := [⟨1, none, 9, some "approved", 100, 0⟩,
              ⟨2, some 1, 10, some "removed", 5, 1⟩],
    votes := [],
    balances := [⟨20, 50⟩],
    ledger := [],
    investments := [⟨1, 20, 2, 1, 10, "pending", 30, none, none⟩,
                    ⟨2, 20, 2, 1, 10, "won", 30, some 20, some 40⟩],
    next_investment_id := 3 }

/-- A configuration with a zero minimum stake, used to exercise the balance
invariant from a fresh (empty-ledger) state. -/
def cfgZero : Config := ⟨0, 2, 7⟩

/-- A fresh state: one parent post (id 1) with one comment (id 2, author 10),
no votes, no balance rows, no ledger entries and no investments, so the
ledger/balance invariant holds trivially. -/
def exFreshState : DBState :=
  { posts := [⟨1, none, 9, none, 0, 0⟩, ⟨2, some 1, 10, none, 0, 1⟩],
    votes := [],
    balances := [],
    ledger := [],
    investments := [],
    next_investment_id := 1 }

/-- The spec's list of `invest` precondition failures, written following the
spec's own words (section 4.2): amount below the minimum stake, comment not
found, comment not a reply (null parent), self-investment, comment moderated
away, or insufficient balance.  Used to compare the spec's error contract
with the behaviour of `invest_in_comment`. -/
def investPreconditionViolated (cfg : Config) (st : DBState)
    (investor_user_id comment_id : Nat) (amount : Int) : Prop :=
  amount < cfg.INVEST_MIN_POINTS ∨
  findPost st comment_id = none ∨
  (∃ p, findPost st comment_id = some p ∧
    (p.parent_id = none ∨ p.user_id = investor_user_id ∨
     moderatedAway p.moderation_status = true ∨
     get_user_points_balance st investor_user_id < amount))

end Hub

namespace Moderation

/-- The `ModerationResult` model (fields as constructed in
`api/services/moderation.py`): flag, severity, reason, action, confidence.
Confidence values are the decimal literals of the source rendered as
rationals. -/
structure ModerationResult where
  is_flagged : Bool
  severity : String
  reason : String
  action : String
  confidence : Rat
  deriving Repr, DecidableEq

/-- The dictionary produced by `_parse_json_safely` on the provider's
response text, restricted to the keys `moderate_content` reads.  A key
absent from the JSON object is `none`; an unparsable response yields the
empty dictionary (every key `none`), as `_parse_json_safely` returns `{}`
in that case.  `confidence` is `none` also when the value is present but
not convertible by `float(...)`. -/
structure JsonData where
  is_flagged : Option Bool
  violation : Option Bool
  severity : Option String
  reason : Option String
  action : Option String
  confidence : Option Rat
  deriving Repr, DecidableEq

/-- The empty dictionary `{}`: what `_parse_json_safely` returns for an
unparsable response. -/
def JsonData.empty : JsonData := ⟨none, none, none, none, none, none⟩

/-- Python's `str.lower()` as used on the JSON string fields (character-wise
lowering, which agrees with `str.lower` on the ASCII values involved). -/
def strLower (s : String) : String := ⟨s.data.map Char.toLower⟩

/-- The outcome of the guarded body of `moderate_content`'s `try` block:
either some exception was raised (provider error, network failure, ...), or
the provider returned a response whose text parsed to the given dictionary. -/
inductive GeminiOutcome where
  | failure (msg : String)
  | response (data : JsonData)
  deriving Repr, DecidableEq

/-- `data.get("reason") or default`: Python's `or` falls through on a
missing key and on an empty string (both falsy). -/
def getReasonOr (reason : Option String) (default : String) : String :=
  match reason with
  | some r => if r = "" then default else r
  | none => default

/-- `moderate_content` from `api/services/moderation.py` lines 68-144,
with the provider call and JSON parsing abstracted into `GeminiOutcome`.
On a successful response the parsed dictionary is mapped to a
`ModerationResult` with safe defaults (lines 106-128); on any exception the
`except` branch returns the default approve result (lines 133-144).  The
best-effort `log_moderation_result` call catches its own exceptions and
performs no state visible here, so it is omitted. -/
def moderate_content (outcome : GeminiOutcome) : ModerationResult :=
  match outcome with
  | .failure msg =>
      ⟨false, "low", "Moderation error: " ++ msg, "approve", (1 : Rat) / 2⟩
  | .response data =>
      let is_flagged :=
        match data.is_flagged with
        | some b => b
        | none =>
          match data.violation with
          | some b => b
          | none => false
      let severity0 := strLower (match data.severity with
        | some s => s
        | none => "low")
      let severity :=
        if severity0 = "low" || severity0 = "medium" || severity0 = "high"
        then severity0 else "low"
      let reason := getReasonOr data.reason
        (if is_flagged then "Flagged content" else "Content approved")
      let action0 := strLower (match data.action with
        | some a => a
        | none => "approve")
      let action :=
        if action0 = "approve" || action0 = "flag" || action0 = "remove"
        then action0
        else if is_flagged then "flag" else "approve"
      let confidence :=
        match data.confidence with
        | some c => c
        | none => if is_flagged then (8 : Rat) / 10 else (9 : Rat) / 10
      ⟨is_flagged, severity, reason, action, confidence⟩

end Moderation

namespace Hub

/-! Helper lemmas about the selection fold `sorted(rows, key=...)[0]`. -/

theorem foldPick_mem {α : Type} (lt : α → α → Bool) (rs : List α) (r : α) :
    rs.foldl (fun best x => if lt x best then x else best) r = r ∨
      rs.foldl (fun best x => if lt x best then x else best) r ∈ rs := by
  induction rs generalizing r with
  | nil => exact Or.inl rfl
  | cons x rs ih =>
    simp only [List.foldl_cons]
    rcases ih (if lt x r then x else r) with h | h
    · rw [h]
      by_cases hx : lt x r
      · simp [hx]
      · simp [hx]
    · exact Or.inr (List.mem_cons_of_mem _ h)

theorem foldPick_improves {α : Type} (lt : α → α → Bool)
    (htrans : ∀ a b c, lt a b = true → lt b c = true → lt a c = true)
    (rs : List α) (r : α) :
    rs.foldl (fun best x => if lt x best then x else best) r = r ∨
      lt (rs.foldl (fun best x => if lt x best then x else best) r) r = true := by
  induction rs generalizing r with
  | nil => exact Or.inl rfl
  | cons x rs ih =>
    simp only [List.foldl_cons]
    by_cases hx : lt x r
    · simp only [hx, if_true]
      rcases ih x with h | h
      · rw [h]; exact Or.inr hx
      · exact Or.inr (htrans _ _ _ h hx)
    · have hx' : lt x r = false := Bool.eq_false_iff.mpr hx
      simp only [hx', Bool.false_eq_true, if_false]
      exact ih r

theorem foldPick_min {α : Type} (lt : α → α → Bool)
    (htrans : ∀ a b c, lt a b = true → lt b c = true → lt a c = true)
    (hirrefl : ∀ a, lt a a = false) (rs : List α) (r : α) :
    ∀ x ∈ r :: rs,
      lt x (rs.foldl (fun best x => if lt x best then x else best) r) = false := by
  induction rs generalizing r with
  | nil =>
    intro x hx
    rw [List.mem_singleton] at hx
    rw [hx]
    exact hirrefl r
  | cons y rs ih =>
    intro x hx
    simp only [List.foldl_cons]
    by_cases hy : lt y r
    · simp only [hy, if_true]
      rcases List.mem_cons.mp hx with hxr | hx'
      · rw [hxr]
        rw [Bool.eq_false_iff]
        intro hcon
        rcases foldPick_improves lt htrans rs y with h | h
        · rw [h] at hcon
          have : lt y y = true := htrans _ _ _ hy hcon
          rw [hirrefl y] at this
          exact Bool.false_ne_true this
        · have h1 : lt r y = true := htrans _ _ _ hcon h
          have : lt y y = true := htrans _ _ _ hy h1
          rw [hirrefl y] at this
          exact Bool.false_ne_true this
      · exact ih y x hx'
    · have hy' : lt y r = false := Bool.eq_false_iff.mpr hy
      simp only [hy', Bool.false_eq_true, if_false]
      rcases List.mem_cons.mp hx with hxr | hx'
      · rw [hxr]
        exact ih r r (List.mem_cons_self r rs)
      · rcases List.mem_cons.mp hx' with hxy | hx''
        · rw [hxy]
          rw [Bool.eq_false_iff]
          intro hcon
          rcases foldPick_improves lt htrans rs r with h | h
          · rw [h] at hcon
            rw [hy'] at hcon
            exact Bool.false_ne_true hcon
          · have h1 : lt y r = true := htrans _ _ _ hcon h
            rw [hy'] at h1
            exact Bool.false_ne_true h1
        · exact ih r x (List.mem_cons_of_mem _ hx'')

theorem pickTop_spec (lt : RankRow → RankRow → Bool)
    (htrans : ∀ a b c, lt a b = true → lt b c = true → lt a c = true)
    (hirrefl : ∀ a, lt a a = false) (l : List RankRow) (r : RankRow)
    (h : pickTop lt l = some r) : r ∈ l ∧ ∀ x ∈ l, lt x r = false := by
  match l with
  | [] => exact absurd h (by simp [pickTop])
  | a :: rs =>
    rw [pickTop] at h
    injection h with hr
    rw [← hr]
    constructor
    · rcases foldPick_mem lt rs a with hm | hm
      · rw [hm]; exact List.mem_cons_self _ _
      · exact List.mem_cons_of_mem _ hm
    · exact foldPick_min lt htrans hirrefl rs a

theorem pickTop_isSome (lt : RankRow → RankRow → Bool) (l : List RankRow)
    (h : l ≠ []) : ∃ r, pickTop lt l = some r := by
  match l with
  | [] => exact absurd rfl h
  | a :: rs => exact ⟨_, rfl⟩

theorem scoreKeyLt_trans (a b c : RankRow) :
    scoreKeyLt a b = true → scoreKeyLt b c = true → scoreKeyLt a c = true := by
  simp only [scoreKeyLt, Bool.or_eq_true, Bool.and_eq_true, decide_eq_true_eq,
    beq_iff_eq]
  omega

theorem scoreKeyLt_irrefl (a : RankRow) : scoreKeyLt a a = false := by
  rw [Bool.eq_false_iff]
  simp only [ne_eq, scoreKeyLt, Bool.or_eq_true, Bool.and_eq_true,
    decide_eq_true_eq, beq_iff_eq]
  omega

theorem viewsKeyLt_trans (a b c : RankRow) :
    viewsKeyLt a b = true → viewsKeyLt b c = true → viewsKeyLt a c = true := by
  simp only [viewsKeyLt, Bool.or_eq_true, Bool.and_eq_true, decide_eq_true_eq,
    beq_iff_eq]
  omega

theorem viewsKeyLt_irrefl (a : RankRow) : viewsKeyLt a a = false := by
  rw [Bool.eq_false_iff]
  simp only [ne_eq, viewsKeyLt, Bool.or_eq_true, Bool.and_eq_true,
    decide_eq_true_eq, beq_iff_eq]
  omega

end Hub

namespace Hub

theorem find?_map_pres {α : Type} (l : List α) (p : α → Bool) (g : α → α)
    (hp : ∀ a, p (g a) = p a) :
    (l.map g).find? p = (l.find? p).map g := by
  induction l with
  | nil => rfl
  | cons a l ih =>
    simp only [List.map_cons]
    by_cases h : p a
    · rw [List.find?_cons_of_pos _ (by rw [hp]; exact h),
        List.find?_cons_of_pos _ h]
      rfl
    · rw [List.find?_cons_of_neg _ (by rw [hp]; exact h),
        List.find?_cons_of_neg _ h, ih]

theorem balance_update_pres (u u' : Nat) (δ : Int) (a : BalanceRow) :
    ((if a.user_id == u then { a with balance := a.balance + δ }
      else a).user_id == u') = (a.user_id == u') := by
  by_cases h : a.user_id == u
  · rw [if_pos h]
  · rw [if_neg h]

theorem ensureBalanceRow_posts (st : DBState) (u : Nat) :
    (ensureBalanceRow st u).posts = st.posts := by
  rw [ensureBalanceRow]
  cases st.balances.find? (fun b => b.user_id == u) <;> rfl

theorem ensureBalanceRow_ledger (st : DBState) (u : Nat) :
    (ensureBalanceRow st u).ledger = st.ledger := by
  rw [ensureBalanceRow]
  cases st.balances.find? (fun b => b.user_id == u) <;> rfl

theorem ensureBalanceRow_investments (st : DBState) (u : Nat) :
    (ensureBalanceRow st u).investments = st.investments := by
  rw [ensureBalanceRow]
  cases st.balances.find? (fun b => b.user_id == u) <;> rfl

theorem ensureBalanceRow_getBal (st : DBState) (u u' : Nat) :
    get_user_points_balance (ensureBalanceRow st u) u' =
      get_user_points_balance st u' := by
  rw [ensureBalanceRow]
  cases h : st.balances.find? (fun b => b.user_id == u) with
  | some b => rfl
  | none =>
    rw [get_user_points_balance, get_user_points_balance]
    dsimp only
    rw [List.find?_append]
    by_cases hu : u' = u
    · rw [hu, h]
      simp
    · cases h2 : st.balances.find? (fun b => b.user_id == u') with
      | some b => rfl
      | none =>
        have h3 : (([⟨u, 0⟩] : List BalanceRow).find?
            (fun b => b.user_id == u')) = none := by
          rw [List.find?_cons_of_neg]
          · rfl
          · simp only [beq_iff_eq]
            exact fun hh => hu hh.symm
        rw [h3]
        rfl

theorem addToBalance_getBal_self (st : DBState) (u : Nat) (δ : Int)
    (hex : (st.balances.find? (fun b => b.user_id == u)).isSome = true) :
    get_user_points_balance (addToBalance st u δ) u =
      get_user_points_balance st u + δ := by
  rw [get_user_points_balance, get_user_points_balance, addToBalance]
  dsimp only
  rw [find?_map_pres st.balances (fun b => b.user_id == u)
      (fun b => if b.user_id == u then { b with balance := b.balance + δ }
        else b) (balance_update_pres u u δ)]
  cases h : st.balances.find? (fun b => b.user_id == u) with
  | some b =>
    have hb := List.find?_some h
    rw [Option.map_some']
    dsimp only
    rw [if_pos hb]
  | none => rw [h] at hex; simp at hex

theorem addToBalance_getBal_other (st : DBState) (u u' : Nat) (δ : Int)
    (hne : u' ≠ u) :
    get_user_points_balance (addToBalance st u δ) u' =
      get_user_points_balance st u' := by
  rw [get_user_points_balance, get_user_points_balance, addToBalance]
  dsimp only
  rw [find?_map_pres st.balances (fun b => b.user_id == u')
      (fun b => if b.user_id == u then { b with balance := b.balance + δ }
        else b) (balance_update_pres u u' δ)]
  cases h : st.balances.find? (fun b => b.user_id == u') with
  | some b =>
    have hb := List.find?_some h
    have hb' : b.user_id = u' := by
      have := hb
      simp only [beq_iff_eq] at this
      exact this
    have hbu : (b.user_id == u) = false := by
      rw [beq_eq_false_iff_ne, hb']
      exact hne
    rw [Option.map_some']
    dsimp only
    rw [if_neg (by rw [hbu]; exact Bool.false_ne_true)]
  | none => rfl

theorem ensure_find_isSome (st : DBState) (u : Nat) :
    (((ensureBalanceRow st u).balances).find?
      (fun b => b.user_id == u)).isSome = true := by
  rw [ensureBalanceRow]
  cases h : st.balances.find? (fun b => b.user_id == u) with
  | some b =>
    dsimp only
    rw [h]
    rfl
  | none =>
    dsimp only
    rw [List.find?_append, h]
    simp

end Hub

namespace Hub

theorem investment_update_pres (investment_id : Nat) (ns : String) (po : Int)
    (now : Nat) (q : Nat) (a : Investment) :
    ((if a.id == investment_id
      then { a with status := ns, payout_amount := some po, settled_at := some now }
      else a).id == q) = (a.id == q) := by
  by_cases h : a.id == investment_id
  · rw [if_pos h]
  · rw [if_neg h]

theorem updateInvestmentRow_find_self (st : DBState) (investment_id : Nat)
    (ns : String) (po : Int) (now : Nat) :
    findInvestment (updateInvestmentRow st investment_id ns po now)
        investment_id =
      (findInvestment st investment_id).map
        (fun i => { i with status := ns, payout_amount := some po, settled_at := some now }) := by
  rw [findInvestment, findInvestment, updateInvestmentRow]
  dsimp only
  rw [find?_map_pres st.investments (fun i => i.id == investment_id)
      (fun i => if i.id == investment_id
        then { i with status := ns, payout_amount := some po, settled_at := some now }
        else i)
      (investment_update_pres investment_id ns po now investment_id)]
  cases h : st.investments.find? (fun i => i.id == investment_id) with
  | some i =>
    have hi := List.find?_some h
    rw [Option.map_some', Option.map_some']
    rw [if_pos hi]
  | none => rfl

theorem settle_investment_nonpending (cfg : Config) (st : DBState)
    (investment_id now : Nat) (inv : Investment)
    (hfind : findInvestment st investment_id = some inv)
    (hnp : inv.status ≠ "pending") :
    settle_investment cfg st investment_id now =
      .ok (st, ⟨investment_id, inv.status, none, none⟩) := by
  rw [settle_investment, hfind]
  dsimp only
  rw [if_pos (bne_iff_ne.mpr hnp)]

/-- C1: settling a pending investment reports it as `won` exactly when the
staked comment is not moderated away (flagged/removed) and is both the
top-by-score and the top-by-views among the non-moderated sibling comments
under the same parent post; in every other case it settles as `lost`.  The
right-hand side conditions `settleModeratedAway`/`isTopScore`/`isTopViews`
are the locals of `settle_investment` (hub.py lines 172-205). -/
theorem settle_pending_reports_win_iff (cfg : Config) (st : DBState)
    (investment_id now : Nat) (inv : Investment)
    (hfind : findInvestment st investment_id = some inv)
    (hpending : inv.status = "pending") :
    ∃ st' s, settle_investment cfg st investment_id now = .ok (st', s) ∧
      (s.status = "won" ↔
        settleModeratedAway st inv.comment_id = false ∧
        isTopScore st inv.post_id inv.comment_id = true ∧
        isTopViews st inv.post_id inv.comment_id = true) ∧
      (s.status = "won" ∨ s.status = "lost") := by
  rw [settle_investment, hfind]
  simp only [hpending]
  cases hwon : settleWon st inv.post_id inv.comment_id with
  | true =>
    simp only [hwon, if_true]
    refine ⟨_, _, rfl, ?_, Or.inl rfl⟩
    rw [settleWon, Bool.and_eq_true, Bool.and_eq_true, Bool.not_eq_true'] at hwon
    exact ⟨fun _ => ⟨hwon.1.1, hwon.1.2, hwon.2⟩, fun _ => rfl⟩
  | false =>
    simp only [hwon, Bool.false_eq_true, if_false]
    refine ⟨_, _, rfl, ?_, Or.inr rfl⟩
    constructor
    · intro hcon
      exact absurd hcon (by simp)
    · intro ⟨h1, h2, h3⟩
      rw [settleWon, h1, h2, h3] at hwon
      simp at hwon

theorem settle_pending_reports_win_iff_witness :
    ∃ st' s, settle_investment exCfg exState 1 99 = .ok (st', s) ∧
      (s.status = "won" ↔
        settleModeratedAway exState 2 = false ∧
        isTopScore exState 1 2 = true ∧
        isTopViews exState 1 2 = true) ∧
      (s.status = "won" ∨ s.status = "lost") :=
  settle_pending_reports_win_iff exCfg exState 1 99
    ⟨1, 20, 2, 1, 10, "pending", 30, none, none⟩ rfl rfl

end Hub

namespace Hub

/-- C5: settlement is idempotent.  Part 1: settling a non-pending investment
performs no state mutation and returns its current status.  Part 2: after any
successful settlement, settling the same investment again leaves the state
unchanged and reports the same status (the second call's summary carries only
the id and status, as in the early-return of hub.py lines 169-170). -/
theorem settle_idempotent :
    (∀ (cfg : Config) (st : DBState) (investment_id now : Nat)
        (inv : Investment),
        findInvestment st investment_id = some inv →
        inv.status ≠ "pending" →
        settle_investment cfg st investment_id now =
          .ok (st, ⟨investment_id, inv.status, none, none⟩)) ∧
    (∀ (cfg : Config) (st : DBState) (investment_id now now' : Nat)
        (st' : DBState) (s : SettleSummary),
        settle_investment cfg st investment_id now = .ok (st', s) →
        settle_investment cfg st' investment_id now' =
          .ok (st', ⟨investment_id, s.status, none, none⟩)) := by
  constructor
  · intro cfg st investment_id now inv hfind hnp
    exact settle_investment_nonpending cfg st investment_id now inv hfind hnp
  · intro cfg st investment_id now now' st' s h
    cases hfind : findInvestment st investment_id with
    | none =>
      rw [settle_investment, hfind] at h
      exact absurd h (by simp)
    | some inv =>
      by_cases hnp : inv.status = "pending"
      · rw [settle_investment, hfind] at h
        simp only [hnp] at h
        cases hwon : settleWon st inv.post_id inv.comment_id with
        | false =>
          simp only [hwon, Bool.false_eq_true, if_false, Bool.false_and] at h
          injection h with hpair
          injection hpair with h1 h2
          have hf2 : findInvestment st' investment_id =
              some { inv with status := "lost", payout_amount := some 0, settled_at := some now } := by
            rw [← h1, updateInvestmentRow_find_self, hfind]
            rfl
          have hs : s.status = "lost" := by rw [← h2]
          rw [hs]
          exact settle_investment_nonpending cfg st' investment_id now' _ hf2
            (by simp)
        | true =>
          simp only [hwon, if_true, Bool.true_and] at h
          by_cases hpp : inv.amount * cfg.INVEST_PAYOUT_MULTIPLIER > 0
          · rw [if_pos (decide_eq_true hpp)] at h
            injection h with hpair
            injection hpair with h1 h2
            have hf2 : findInvestment st' investment_id =
                some { inv with status := "won", payout_amount := some (inv.amount * cfg.INVEST_PAYOUT_MULTIPLIER), settled_at := some now } := by
              rw [← h1, findInvestment]
              dsimp only [addToBalance]
              rw [ensureBalanceRow_investments, ← findInvestment,
                updateInvestmentRow_find_self, hfind]
              rfl
            have hs : s.status = "won" := by rw [← h2]
            rw [hs]
            exact settle_investment_nonpending cfg st' investment_id now' _ hf2
              (by simp)
          · rw [if_neg (fun hc => hpp (of_decide_eq_true hc))] at h
            injection h with hpair
            injection hpair with h1 h2
            have hf2 : findInvestment st' investment_id =
                some { inv with status := "won", payout_amount := some (inv.amount * cfg.INVEST_PAYOUT_MULTIPLIER), settled_at := some now } := by
              rw [← h1, updateInvestmentRow_find_self, hfind]
              rfl
            have hs : s.status = "won" := by rw [← h2]
            rw [hs]
            exact settle_investment_nonpending cfg st' investment_id now' _ hf2
              (by simp)
      · rw [settle_investment_nonpending cfg st investment_id now inv hfind
          hnp] at h
        injection h with hpair
        injection hpair with h1 h2
        have hf2 : findInvestment st' investment_id = some inv := by
          rw [← h1]
          exact hfind
        have hs : s.status = inv.status := by rw [← h2]
        rw [hs]
        exact settle_investment_nonpending cfg st' investment_id now' inv hf2
          hnp

theorem settle_idempotent_witness :
    settle_investment exCfg exEmptySiblingState 2 50 =
      .ok (exEmptySiblingState, ⟨2, "won", none, none⟩) :=
  settle_idempotent.1 exCfg exEmptySiblingState 2 50
    ⟨2, 20, 2, 1, 10, "won", 30, some 20, some 40⟩ rfl (by decide)

end Hub

namespace Hub

/-- C2: the settlement ranking picks, from any non-empty set of sibling
records, a top-by-score element maximal for (highest score, then highest
views, then earliest creation time) and a top-by-views element maximal for
(highest views, then highest score, then earliest creation time): the picked
element belongs to the set and no element strictly precedes it in the
corresponding key order.  On the spec's example (A: score 5/views 10, B:
score 5/views 20) B is both winners, so the investment on A settles lost and
the one on B settles won with payout 20. -/
theorem settlement_ranking_maximal_and_example :
    (∀ l : List RankRow, l ≠ [] →
        ∃ r, pickTop scoreKeyLt l = some r ∧ r ∈ l ∧
          ∀ x ∈ l, scoreKeyLt x r = false) ∧
    (∀ l : List RankRow, l ≠ [] →
        ∃ r, pickTop viewsKeyLt l = some r ∧ r ∈ l ∧
          ∀ x ∈ l, viewsKeyLt x r = false) ∧
    (isTopScore exState 1 3 = true ∧ isTopViews exState 1 3 = true ∧
     isTopScore exState 1 2 = false ∧ isTopViews exState 1 2 = false) ∧
    (∃ stA, settle_investment exCfg exState 1 99 =
        .ok (stA, ⟨1, "lost", some 0, some false⟩)) ∧
    (∃ stB, settle_investment exCfg exState 2 99 =
        .ok (stB, ⟨2, "won", some 20, some true⟩)) := by
  refine ⟨?_, ?_, by decide, ⟨_, rfl⟩, ⟨_, rfl⟩⟩
  · intro l hl
    obtain ⟨r, hr⟩ := pickTop_isSome scoreKeyLt l hl
    obtain ⟨hmem, hmin⟩ :=
      pickTop_spec scoreKeyLt scoreKeyLt_trans scoreKeyLt_irrefl l r hr
    exact ⟨r, hr, hmem, hmin⟩
  · intro l hl
    obtain ⟨r, hr⟩ := pickTop_isSome viewsKeyLt l hl
    obtain ⟨hmem, hmin⟩ :=
      pickTop_spec viewsKeyLt viewsKeyLt_trans viewsKeyLt_irrefl l r hr
    exact ⟨r, hr, hmem, hmin⟩

theorem settlement_ranking_maximal_and_example_witness :
    ∃ r, pickTop scoreKeyLt
        [⟨2, 5, 10, 1⟩, ⟨3, 5, 20, 2⟩] = some r ∧
      r ∈ [⟨2, 5, 10, 1⟩, ⟨3, 5, 20, 2⟩] ∧
      ∀ x ∈ ([⟨2, 5, 10, 1⟩, ⟨3, 5, 20, 2⟩] : List RankRow),
        scoreKeyLt x r = false :=
  settlement_ranking_maximal_and_example.1
    [⟨2, 5, 10, 1⟩, ⟨3, 5, 20, 2⟩] (by decide)

/-- C7: the settlement ranking is total — `pickTop` is defined on the empty
set (returning no winner) and returns a winner on every non-empty set — and
when a pending investment's eligible sibling set is empty, there is no winner
on either axis, so the investment settles as lost. -/
theorem ranking_total_and_empty_sibling_set_loses :
    (pickTop scoreKeyLt [] = none ∧ pickTop viewsKeyLt [] = none) ∧
    (∀ (lt : RankRow → RankRow → Bool) (l : List RankRow), l ≠ [] →
        ∃ r, pickTop lt l = some r) ∧
    (∀ (cfg : Config) (st : DBState) (investment_id now : Nat)
        (inv : Investment),
        findInvestment st investment_id = some inv →
        inv.status = "pending" →
        eligibleSiblings st inv.post_id = [] →
        ∃ st' s, settle_investment cfg st investment_id now = .ok (st', s) ∧
          s.status = "lost" ∧ s.won = some false) := by
  refine ⟨⟨rfl, rfl⟩, pickTop_isSome, ?_⟩
  intro cfg st investment_id now inv hfind hpending hempty
  have hwon : settleWon st inv.post_id inv.comment_id = false := by
    rw [settleWon, isTopScore, isTopViews, hempty]
    simp [pickTop]
  rw [settle_investment, hfind]
  simp only [hpending]
  simp only [hwon, Bool.false_eq_true, if_false]
  exact ⟨_, _, rfl, rfl, rfl⟩

theorem ranking_total_and_empty_sibling_set_loses_witness :
    ∃ st' s, settle_investment exCfg exEmptySiblingState 1 40 =
        .ok (st', s) ∧ s.status = "lost" ∧ s.won = some false :=
  ranking_total_and_empty_sibling_set_loses.2.2 exCfg exEmptySiblingState 1 40
    ⟨1, 20, 2, 1, 10, "pending", 30, none, none⟩ rfl rfl rfl

/-- C10: the staked comment is itself a member of the sibling set it is
ranked against (every non-moderated child of the parent appears in the
sibling query's result), and when the staked comment is the only
non-moderated child of its parent and is itself not flagged or removed, the
investment settles as won regardless of its score or view count. -/
theorem staked_comment_in_sibling_set_and_lone_child_wins :
    (∀ (st : DBState) (parent_id : Nat) (p : Post), p ∈ st.posts →
        p.parent_id = some parent_id →
        moderatedAway p.moderation_status = false →
        (⟨p.id, postScore st.votes p.id, p.views, p.created_at⟩ : RankRow) ∈
          eligibleSiblings st parent_id) ∧
    (∀ (cfg : Config) (st : DBState) (investment_id now : Nat)
        (inv : Investment) (p : Post),
        findInvestment st investment_id = some inv →
        inv.status = "pending" →
        findPost st inv.comment_id = some p →
        moderatedAway p.moderation_status = false →
        st.posts.filter (fun q => q.parent_id == some inv.post_id &&
          !(moderatedAway q.moderation_status)) = [p] →
        p.id = inv.comment_id →
        ∃ st' s, settle_investment cfg st investment_id now = .ok (st', s) ∧
          s.status = "won" ∧ s.won = some true) := by
  constructor
  · intro st parent_id p hmem hpar hmod
    rw [eligibleSiblings]
    apply List.mem_map_of_mem
    rw [List.mem_filter]
    refine ⟨hmem, ?_⟩
    rw [hpar, hmod]
    simp
  · intro cfg st investment_id now inv p hfind hpending hpost hmod hfilter hid
    have hsib : eligibleSiblings st inv.post_id =
        [⟨p.id, postScore st.votes p.id, p.views, p.created_at⟩] := by
      rw [eligibleSiblings, hfilter]
      rfl
    have hts : isTopScore st inv.post_id inv.comment_id = true := by
      rw [isTopScore, hsib]
      show (p.id == inv.comment_id) = true
      rw [hid]
      exact beq_self_eq_true _
    have htv : isTopViews st inv.post_id inv.comment_id = true := by
      rw [isTopViews, hsib]
      show (p.id == inv.comment_id) = true
      rw [hid]
      exact beq_self_eq_true _
    have hma : settleModeratedAway st inv.comment_id = false := by
      rw [settleModeratedAway, hpost]
      exact hmod
    have hwon : settleWon st inv.post_id inv.comment_id = true := by
      rw [settleWon, hma, hts, htv]
      rfl
    rw [settle_investment, hfind]
    simp only [hpending]
    simp only [hwon, if_true]
    exact ⟨_, _, rfl, rfl, rfl⟩

theorem staked_comment_in_sibling_set_and_lone_child_wins_witness :
    ∃ st' s, settle_investment exCfg exLoneChildState 1 77 = .ok (st', s) ∧
      s.status = "won" ∧ s.won = some true :=
  staked_comment_in_sibling_set_and_lone_child_wins.2 exCfg exLoneChildState
    1 77 ⟨1, 20, 2, 1, 10, "pending", 30, none, none⟩
    ⟨2, some 1, 10, some "approved", 0, 1⟩ rfl rfl rfl rfl rfl rfl

end Hub

namespace Hub

theorem getBal_congr (st st' : DBState) (h : st.balances = st'.balances)
    (u : Nat) :
    get_user_points_balance st u = get_user_points_balance st' u := by
  rw [get_user_points_balance, get_user_points_balance, h]

theorem invest_balance_chain (st1 : DBState) (u : Nat) (δ : Int) :
    get_user_points_balance (addToBalance (ensureBalanceRow st1 u) u δ) u =
      get_user_points_balance st1 u + δ := by
  rw [addToBalance_getBal_self _ _ _ (ensure_find_isSome st1 u),
    ensureBalanceRow_getBal]

theorem tail_investments (st1 : DBState) (u : Nat) (δ : Int)
    (e : LedgerEntry) :
    ({ addToBalance (ensureBalanceRow st1 u) u δ with
       ledger := (addToBalance (ensureBalanceRow st1 u) u δ).ledger ++ [e] }
      : DBState).investments = st1.investments := by
  dsimp only [addToBalance]
  rw [ensureBalanceRow_investments]

theorem tail_ledger (st1 : DBState) (u : Nat) (δ : Int) (e : LedgerEntry) :
    ({ addToBalance (ensureBalanceRow st1 u) u δ with
       ledger := (addToBalance (ensureBalanceRow st1 u) u δ).ledger ++ [e] }
      : DBState).ledger = st1.ledger ++ [e] := by
  dsimp only [addToBalance]
  rw [ensureBalanceRow_ledger]

theorem tail_getBal_self (st1 : DBState) (u : Nat) (δ : Int)
    (e : LedgerEntry) :
    get_user_points_balance
      ({ addToBalance (ensureBalanceRow st1 u) u δ with
         ledger := (addToBalance (ensureBalanceRow st1 u) u δ).ledger ++ [e] }
        : DBState) u = get_user_points_balance st1 u + δ :=
  (getBal_congr _ (addToBalance (ensureBalanceRow st1 u) u δ) rfl u).trans
    (invest_balance_chain st1 u δ)

theorem tail_getBal_other (st1 : DBState) (u u' : Nat) (δ : Int)
    (e : LedgerEntry) (hne : u' ≠ u) :
    get_user_points_balance
      ({ addToBalance (ensureBalanceRow st1 u) u δ with
         ledger := (addToBalance (ensureBalanceRow st1 u) u δ).ledger ++ [e] }
        : DBState) u' = get_user_points_balance st1 u' :=
  (getBal_congr _ (addToBalance (ensureBalanceRow st1 u) u δ) rfl u').trans
    (by rw [addToBalance_getBal_other _ _ _ _ hne, ensureBalanceRow_getBal])

theorem tail_find_isSome (st1 : DBState) (u : Nat) (δ : Int)
    (e : LedgerEntry) :
    ((({ addToBalance (ensureBalanceRow st1 u) u δ with
        ledger := (addToBalance (ensureBalanceRow st1 u) u δ).ledger ++ [e] }
        : DBState).balances).find? (fun b => b.user_id == u)).isSome
      = true := by
  show (((ensureBalanceRow st1 u).balances.map
      (fun b => if b.user_id == u then { b with balance := b.balance + δ }
        else b)).find? (fun b => b.user_id == u)).isSome = true
  rw [find?_map_pres ((ensureBalanceRow st1 u).balances)
    (fun b => b.user_id == u)
    (fun b => if b.user_id == u then { b with balance := b.balance + δ }
      else b) (balance_update_pres u u δ)]
  have hsome := ensure_find_isSome st1 u
  cases hfb : (ensureBalanceRow st1 u).balances.find?
      (fun b => b.user_id == u) with
  | some b => rw [Option.map_some']; rfl
  | none => rw [hfb] at hsome; simp at hsome

theorem ledgerSum_append (st st' : DBState) (e : LedgerEntry)
    (h : st'.ledger = st.ledger ++ [e]) (u : Nat) :
    ledgerSum st' u =
      ledgerSum st u + (if e.user_id == u then e.delta else 0) := by
  rw [ledgerSum, ledgerSum, h, List.filter_append, List.map_append,
    List.sum_append]
  cases he : e.user_id == u with
  | true =>
    have hf : List.filter (fun x => x.user_id == u) [e] = [e] := by
      rw [List.filter, he]
      rfl
    rw [hf]
    simp
  | false =>
    have hf : List.filter (fun x => x.user_id == u) [e] = [] := by
      rw [List.filter, he]
      rfl
    rw [hf]
    simp

end Hub

namespace Hub

/-- C3: when every precondition holds, `invest_in_comment` succeeds and, in
one atomic batch, appends a `pending` investment with
`settle_at = now + INVEST_WINDOW_DAYS`, ensures a balance row for the
investor, decrements the investor's balance by exactly `amount`, and appends
exactly one ledger entry with delta `-amount` and reason `invest_stake`
referencing the comment. -/
theorem invest_success_effects (cfg : Config) (st : DBState)
    (investor_user_id comment_id : Nat) (amount : Int) (now : Nat)
    (row : Post) (parent_id : Nat)
    (hmin : cfg.INVEST_MIN_POINTS ≤ amount)
    (hrow : findPost st comment_id = some row)
    (hparent : row.parent_id = some parent_id)
    (hauthor : row.user_id ≠ investor_user_id)
    (hmod : moderatedAway row.moderation_status = false)
    (hbal : amount ≤ get_user_points_balance st investor_user_id) :
    ∃ st' s, invest_in_comment cfg st investor_user_id comment_id amount now =
        .ok (st', s) ∧
      st'.investments = st.investments ++
        [⟨st.next_investment_id, investor_user_id, comment_id, parent_id,
          amount, "pending", now + cfg.INVEST_WINDOW_DAYS, none, none⟩] ∧
      (st'.balances.find?
        (fun b => b.user_id == investor_user_id)).isSome = true ∧
      get_user_points_balance st' investor_user_id =
        get_user_points_balance st investor_user_id - amount ∧
      st'.ledger = st.ledger ++
        [⟨investor_user_id, -amount, "invest_stake", some comment_id, none⟩] ∧
      s = ⟨investor_user_id, comment_id, parent_id, amount, "pending",
           now + cfg.INVEST_WINDOW_DAYS⟩ := by
  rw [invest_in_comment, if_neg (not_lt.mpr hmin), hrow]
  dsimp only
  rw [hparent]
  dsimp only
  rw [if_neg (fun hc => hauthor (by
      have hcc := hc
      simp only [beq_iff_eq] at hcc
      exact hcc))]
  rw [if_neg (by rw [hmod]; exact Bool.false_ne_true)]
  rw [if_neg (not_lt.mpr hbal)]
  refine ⟨_, _, rfl, ?_, ?_, ?_, ?_, rfl⟩
  · exact tail_investments _ _ _ _
  · exact tail_find_isSome _ _ _ _
  · refine (tail_getBal_self _ _ _ _).trans ?_
    rw [getBal_congr
      { st with
        investments := st.investments ++
          [⟨st.next_investment_id, investor_user_id, comment_id, parent_id,
            amount, "pending", now + cfg.INVEST_WINDOW_DAYS, none, none⟩],
        next_investment_id := st.next_investment_id + 1 }
      st rfl investor_user_id]
    omega
  · exact tail_ledger _ _ _ _

theorem invest_success_effects_witness :
    ∃ st' s, invest_in_comment exCfg exState 20 3 10 5 = .ok (st', s) ∧
      st'.investments = exState.investments ++
        [⟨3, 20, 3, 1, 10, "pending", 12, none, none⟩] ∧
      (st'.balances.find? (fun b => b.user_id == 20)).isSome = true ∧
      get_user_points_balance st' 20 =
        get_user_points_balance exState 20 - 10 ∧
      st'.ledger = exState.ledger ++
        [⟨20, -10, "invest_stake", some 3, none⟩] ∧
      s = ⟨20, 3, 1, 10, "pending", 12⟩ :=
  invest_success_effects exCfg exState 20 3 10 5
    ⟨3, some 1, 11, some "approved", 20, 2⟩ 1 (by decide) rfl rfl
    (by decide) rfl (by decide)

end Hub

namespace Hub

theorem tail_findInvestment (st1 : DBState) (u : Nat) (δ : Int)
    (e : LedgerEntry) (q : Nat) :
    findInvestment
      ({ addToBalance (ensureBalanceRow st1 u) u δ with
         ledger := (addToBalance (ensureBalanceRow st1 u) u δ).ledger ++ [e] }
        : DBState) q = findInvestment st1 q := by
  rw [findInvestment, findInvestment]
  show ((ensureBalanceRow st1 u).investments.find? (fun i => i.id == q)) = _
  rw [ensureBalanceRow_investments]

theorem tail_ledgerSum (st1 : DBState) (u : Nat) (δ : Int)
    (e : LedgerEntry) (u' : Nat) :
    ledgerSum
      ({ addToBalance (ensureBalanceRow st1 u) u δ with
         ledger := (addToBalance (ensureBalanceRow st1 u) u δ).ledger ++ [e] }
        : DBState) u' =
      ledgerSum st1 u' + (if e.user_id == u' then e.delta else 0) :=
  ledgerSum_append st1 _ e (tail_ledger st1 u δ e) u'

/-- C6: settling a pending investment on a win sets the payout to
`amount * INVEST_PAYOUT_MULTIPLIER`, credits the investor's balance by the
payout, appends an `invest_payout` ledger entry referencing the comment and
the investment id, and records status `won` with `payout_amount` and
`settled_at`; on a loss it records status `lost` with `payout_amount = 0` and
`settled_at`, changing neither balances nor ledger.  The positivity
hypothesis reflects the spec's data model (stake amounts are positive), as
the code credits the win only under its `payout > 0` guard. -/
theorem settle_outcome_effects (cfg : Config) (st : DBState)
    (investment_id now : Nat) (inv : Investment)
    (hfind : findInvestment st investment_id = some inv)
    (hpending : inv.status = "pending")
    (hpos : 0 < inv.amount * cfg.INVEST_PAYOUT_MULTIPLIER) :
    ∃ st' s, settle_investment cfg st investment_id now = .ok (st', s) ∧
      ((settleWon st inv.post_id inv.comment_id = true →
          s.status = "won" ∧
          s.payout = some (inv.amount * cfg.INVEST_PAYOUT_MULTIPLIER) ∧
          get_user_points_balance st' inv.investor_user_id =
            get_user_points_balance st inv.investor_user_id +
              inv.amount * cfg.INVEST_PAYOUT_MULTIPLIER ∧
          st'.ledger = st.ledger ++
            [⟨inv.investor_user_id, inv.amount * cfg.INVEST_PAYOUT_MULTIPLIER,
              "invest_payout", some inv.comment_id, some investment_id⟩] ∧
          findInvestment st' investment_id =
            some { inv with status := "won", payout_amount := some (inv.amount * cfg.INVEST_PAYOUT_MULTIPLIER), settled_at := some now }) ∧
       (settleWon st inv.post_id inv.comment_id = false →
          s.status = "lost" ∧ s.payout = some 0 ∧
          st'.balances = st.balances ∧ st'.ledger = st.ledger ∧
          findInvestment st' investment_id =
            some { inv with status := "lost", payout_amount := some 0, settled_at := some now })) := by
  rw [settle_investment, hfind]
  simp only [hpending]
  cases hwon : settleWon st inv.post_id inv.comment_id with
  | true =>
    simp only [hwon, if_true, Bool.true_and]
    rw [if_pos (decide_eq_true hpos)]
    refine ⟨_, _, rfl, ?_, ?_⟩
    · intro _
      refine ⟨rfl, rfl, ?_, ?_, ?_⟩
      · refine (tail_getBal_self _ _ _ _).trans ?_
        rw [getBal_congr
          (updateInvestmentRow st investment_id "won"
            (inv.amount * cfg.INVEST_PAYOUT_MULTIPLIER) now)
          st rfl inv.investor_user_id]
      · exact tail_ledger _ _ _ _
      · rw [tail_findInvestment, updateInvestmentRow_find_self, hfind]
        rfl
    · intro hcon
      exact Bool.noConfusion hcon
  | false =>
    simp only [hwon, Bool.false_eq_true, if_false, Bool.false_and]
    refine ⟨_, _, rfl, ?_, ?_⟩
    · intro hcon
      exact hcon.elim
    · intro _
      refine ⟨rfl, rfl, rfl, rfl, ?_⟩
      rw [updateInvestmentRow_find_self, hfind]
      rfl

theorem settle_outcome_effects_witness :
    ∃ st' s, settle_investment exCfg exState 2 99 = .ok (st', s) ∧
      ((settleWon exState 1 3 = true →
          s.status = "won" ∧ s.payout = some 20 ∧
          get_user_points_balance st' 21 =
            get_user_points_balance exState 21 + 20 ∧
          st'.ledger = exState.ledger ++
            [⟨21, 20, "invest_payout", some 3, some 2⟩] ∧
          findInvestment st' 2 =
            some ⟨2, 21, 3, 1, 10, "won", 30, some 20, some 99⟩) ∧
       (settleWon exState 1 3 = false →
          s.status = "lost" ∧ s.payout = some 0 ∧
          st'.balances = exState.balances ∧ st'.ledger = exState.ledger ∧
          findInvestment st' 2 =
            some ⟨2, 21, 3, 1, 10, "lost", 30, some 0, some 99⟩)) :=
  settle_outcome_effects exCfg exState 2 99
    ⟨2, 21, 3, 1, 10, "pending", 30, none, none⟩ rfl rfl (by decide)

end Hub

namespace Hub

/-- C4: `invest_in_comment` raises a validation error exactly when at least
one precondition is unmet — amount below the minimum, comment not found,
null parent, self-investment, moderated-away comment, or insufficient
balance.  On failure the operation produces no successor state at all: in
the code every `raise` happens before the single atomic write batch, so a
failed call leaves the investor's balance and all other state unchanged,
which the embedding renders by returning `Except.error` without a state. -/
theorem invest_error_iff_precondition_violated (cfg : Config) (st : DBState)
    (investor_user_id comment_id : Nat) (amount : Int) (now : Nat) :
    (∃ e, invest_in_comment cfg st investor_user_id comment_id amount now =
        .error e) ↔
      investPreconditionViolated cfg st investor_user_id comment_id amount := by
  rw [invest_in_comment, investPreconditionViolated]
  by_cases hmin : amount < cfg.INVEST_MIN_POINTS
  · rw [if_pos hmin]
    exact ⟨fun _ => Or.inl hmin, fun _ => ⟨_, rfl⟩⟩
  · rw [if_neg hmin]
    cases hrow : findPost st comment_id with
    | none =>
      exact ⟨fun _ => Or.inr (Or.inl rfl), fun _ => ⟨_, rfl⟩⟩
    | some p =>
      dsimp only
      cases hpar : p.parent_id with
      | none =>
        refine ⟨fun _ => Or.inr (Or.inr ⟨p, rfl, Or.inl hpar⟩), fun _ => ⟨_, rfl⟩⟩
      | some parent_id =>
        dsimp only
        by_cases hauth : p.user_id == investor_user_id
        · rw [if_pos hauth]
          refine ⟨fun _ => Or.inr (Or.inr ⟨p, rfl, Or.inr (Or.inl ?_)⟩),
            fun _ => ⟨_, rfl⟩⟩
          have hcc := hauth
          simp only [beq_iff_eq] at hcc
          exact hcc
        · rw [if_neg hauth]
          by_cases hmodb : moderatedAway p.moderation_status
          · rw [if_pos hmodb]
            exact ⟨fun _ => Or.inr (Or.inr ⟨p, rfl, Or.inr (Or.inr
              (Or.inl hmodb))⟩), fun _ => ⟨_, rfl⟩⟩
          · rw [if_neg hmodb]
            by_cases hb : get_user_points_balance st investor_user_id < amount
            · rw [if_pos hb]
              exact ⟨fun _ => Or.inr (Or.inr ⟨p, rfl, Or.inr (Or.inr
                (Or.inr hb))⟩), fun _ => ⟨_, rfl⟩⟩
            · rw [if_neg hb]
              constructor
              · intro ⟨e, he⟩
                exact absurd he (by simp)
              · intro hviol
                rcases hviol with h | h | ⟨q, hq, hcase⟩
                · exact absurd h hmin
                · exact Option.noConfusion h
                · injection hq with hq'
                  rw [← hq'] at hcase
                  rcases hcase with h | h | h | h
                  · rw [hpar] at h
                    exact Option.noConfusion h
                  · exact absurd (by rw [h]; exact beq_self_eq_true _) hauth
                  · exact absurd h hmodb
                  · exact absurd h hb

theorem invest_error_iff_precondition_violated_witness :
    (∃ e, invest_in_comment exCfg exState 20 3 5 9 = .error e) ↔
      investPreconditionViolated exCfg exState 20 3 5 :=
  invest_error_iff_precondition_violated exCfg exState 20 3 5 9

end Hub

namespace Hub

/-- C8: the invariant "each user's balance equals the sum of that user's
ledger deltas" is preserved by every successful `invest_in_comment` (which
writes a `-amount` ledger entry together with a `-amount` balance decrement)
and by every successful `settle_investment` (which on a win writes a
`+payout` ledger entry together with a `+payout` balance credit, and on a
loss writes neither). -/
theorem balance_invariant_preserved :
    (∀ (cfg : Config) (st : DBState) (investor_user_id comment_id : Nat)
        (amount : Int) (now : Nat) (st' : DBState) (s : InvestSummary),
        invest_in_comment cfg st investor_user_id comment_id amount now =
          .ok (st', s) →
        BalanceInvariant st → BalanceInvariant st') ∧
    (∀ (cfg : Config) (st : DBState) (investment_id now : Nat)
        (st' : DBState) (s : SettleSummary),
        settle_investment cfg st investment_id now = .ok (st', s) →
        BalanceInvariant st → BalanceInvariant st') := by
  constructor
  · intro cfg st investor_user_id comment_id amount now st' s h hInv
    rw [invest_in_comment] at h
    by_cases hmin : amount < cfg.INVEST_MIN_POINTS
    · rw [if_pos hmin] at h
      exact absurd h (by simp)
    · rw [if_neg hmin] at h
      cases hrow : findPost st comment_id with
      | none => rw [hrow] at h; exact absurd h (by simp)
      | some row =>
        rw [hrow] at h
        dsimp only at h
        cases hpar : row.parent_id with
        | none => rw [hpar] at h; exact absurd h (by simp)
        | some parent_id =>
          rw [hpar] at h
          dsimp only at h
          by_cases hauth : row.user_id == investor_user_id
          · rw [if_pos hauth] at h; exact absurd h (by simp)
          · rw [if_neg hauth] at h
            by_cases hmodb : moderatedAway row.moderation_status
            · rw [if_pos hmodb] at h; exact absurd h (by simp)
            · rw [if_neg hmodb] at h
              by_cases hb : get_user_points_balance st investor_user_id < amount
              · rw [if_pos hb] at h; exact absurd h (by simp)
              · rw [if_neg hb] at h
                injection h with hpair
                injection hpair with h1 h2
                intro u
                rw [← h1]
                by_cases hu : u = investor_user_id
                · rw [hu]
                  rw [tail_getBal_self
                      { st with
                        investments := st.investments ++
                          [⟨st.next_investment_id, investor_user_id,
                            comment_id, parent_id, amount, "pending",
                            now + cfg.INVEST_WINDOW_DAYS, none, none⟩],
                        next_investment_id := st.next_investment_id + 1 }
                      investor_user_id (-amount)
                      ⟨investor_user_id, -amount, "invest_stake",
                        some comment_id, none⟩]
                  rw [tail_ledgerSum
                      { st with
                        investments := st.investments ++
                          [⟨st.next_investment_id, investor_user_id,
                            comment_id, parent_id, amount, "pending",
                            now + cfg.INVEST_WINDOW_DAYS, none, none⟩],
                        next_investment_id := st.next_investment_id + 1 }
                      investor_user_id (-amount)
                      ⟨investor_user_id, -amount, "invest_stake",
                        some comment_id, none⟩ investor_user_id]
                  rw [getBal_congr
                      { st with
                        investments := st.investments ++
                          [⟨st.next_investment_id, investor_user_id,
                            comment_id, parent_id, amount, "pending",
                            now + cfg.INVEST_WINDOW_DAYS, none, none⟩],
                        next_investment_id := st.next_investment_id + 1 }
                      st rfl investor_user_id]
                  rw [hInv investor_user_id]
                  have hls : ledgerSum
                      { st with
                        investments := st.investments ++
                          [⟨st.next_investment_id, investor_user_id,
                            comment_id, parent_id, amount, "pending",
                            now + cfg.INVEST_WINDOW_DAYS, none, none⟩],
                        next_investment_id := st.next_investment_id + 1 }
                      investor_user_id = ledgerSum st investor_user_id := rfl
                  rw [hls]
                  simp
                · rw [tail_getBal_other
                      { st with
                        investments := st.investments ++
                          [⟨st.next_investment_id, investor_user_id,
                            comment_id, parent_id, amount, "pending",
                            now + cfg.INVEST_WINDOW_DAYS, none, none⟩],
                        next_investment_id := st.next_investment_id + 1 }
                      investor_user_id u (-amount)
                      ⟨investor_user_id, -amount, "invest_stake",
                        some comment_id, none⟩ hu]
                  rw [tail_ledgerSum
                      { st with
                        investments := st.investments ++
                          [⟨st.next_investment_id, investor_user_id,
                            comment_id, parent_id, amount, "pending",
                            now + cfg.INVEST_WINDOW_DAYS, none, none⟩],
                        next_investment_id := st.next_investment_id + 1 }
                      investor_user_id (-amount)
                      ⟨investor_user_id, -amount, "invest_stake",
                        some comment_id, none⟩ u]
                  rw [getBal_congr
                      { st with
                        investments := st.investments ++
                          [⟨st.next_investment_id, investor_user_id,
                            comment_id, parent_id, amount, "pending",
                            now + cfg.INVEST_WINDOW_DAYS, none, none⟩],
                        next_investment_id := st.next_investment_id + 1 }
                      st rfl u]
                  rw [hInv u]
                  have hls : ledgerSum
                      { st with
                        investments := st.investments ++
                          [⟨st.next_investment_id, investor_user_id,
                            comment_id, parent_id, amount, "pending",
                            now + cfg.INVEST_WINDOW_DAYS, none, none⟩],
                        next_investment_id := st.next_investment_id + 1 }
                      u = ledgerSum st u := rfl
                  rw [hls]
                  have hne : (investor_user_id == u) = false := by
                    rw [beq_eq_false_iff_ne]
                    exact fun hh => hu hh.symm
                  simp [hne]
  · intro cfg st investment_id now st' s h hInv
    cases hfind : findInvestment st investment_id with
    | none =>
      rw [settle_investment, hfind] at h
      exact absurd h (by simp)
    | some inv =>
      by_cases hnp : inv.status = "pending"
      · rw [settle_investment, hfind] at h
        simp only [hnp] at h
        cases hwon : settleWon st inv.post_id inv.comment_id with
        | false =>
          simp only [hwon, Bool.false_eq_true, if_false, Bool.false_and] at h
          injection h with hpair
          injection hpair with h1 h2
          intro u
          rw [← h1]
          exact hInv u
        | true =>
          simp only [hwon, if_true, Bool.true_and] at h
          by_cases hpp : inv.amount * cfg.INVEST_PAYOUT_MULTIPLIER > 0
          · rw [if_pos (decide_eq_true hpp)] at h
            injection h with hpair
            injection hpair with h1 h2
            intro u
            rw [← h1]
            by_cases hu : u = inv.investor_user_id
            · rw [hu]
              rw [tail_getBal_self
                  (updateInvestmentRow st investment_id "won"
                    (inv.amount * cfg.INVEST_PAYOUT_MULTIPLIER) now)
                  inv.investor_user_id
                  (inv.amount * cfg.INVEST_PAYOUT_MULTIPLIER)
                  ⟨inv.investor_user_id,
                    inv.amount * cfg.INVEST_PAYOUT_MULTIPLIER,
                    "invest_payout", some inv.comment_id,
                    some investment_id⟩]
              rw [tail_ledgerSum
                  (updateInvestmentRow st investment_id "won"
                    (inv.amount * cfg.INVEST_PAYOUT_MULTIPLIER) now)
                  inv.investor_user_id
                  (inv.amount * cfg.INVEST_PAYOUT_MULTIPLIER)
                  ⟨inv.investor_user_id,
                    inv.amount * cfg.INVEST_PAYOUT_MULTIPLIER,
                    "invest_payout", some inv.comment_id,
                    some investment_id⟩ inv.investor_user_id]
              rw [getBal_congr
                  (updateInvestmentRow st investment_id "won"
                    (inv.amount * cfg.INVEST_PAYOUT_MULTIPLIER) now)
                  st rfl inv.investor_user_id]
              rw [hInv inv.investor_user_id]
              have hls : ledgerSum
                  (updateInvestmentRow st investment_id "won"
                    (inv.amount * cfg.INVEST_PAYOUT_MULTIPLIER) now)
                  inv.investor_user_id = ledgerSum st inv.investor_user_id :=
                rfl
              rw [hls]
              simp
            · rw [tail_getBal_other
                  (updateInvestmentRow st investment_id "won"
                    (inv.amount * cfg.INVEST_PAYOUT_MULTIPLIER) now)
                  inv.investor_user_id u
                  (inv.amount * cfg.INVEST_PAYOUT_MULTIPLIER)
                  ⟨inv.investor_user_id,
                    inv.amount * cfg.INVEST_PAYOUT_MULTIPLIER,
                    "invest_payout", some inv.comment_id,
                    some investment_id⟩ hu]
              rw [tail_ledgerSum
                  (updateInvestmentRow st investment_id "won"
                    (inv.amount * cfg.INVEST_PAYOUT_MULTIPLIER) now)
                  inv.investor_user_id
                  (inv.amount * cfg.INVEST_PAYOUT_MULTIPLIER)
                  ⟨inv.investor_user_id,
                    inv.amount * cfg.INVEST_PAYOUT_MULTIPLIER,
                    "invest_payout", some inv.comment_id,
                    some investment_id⟩ u]
              rw [getBal_congr
                  (updateInvestmentRow st investment_id "won"
                    (inv.amount * cfg.INVEST_PAYOUT_MULTIPLIER) now)
                  st rfl u]
              rw [hInv u]
              have hls : ledgerSum
                  (updateInvestmentRow st investment_id "won"
                    (inv.amount * cfg.INVEST_PAYOUT_MULTIPLIER) now) u =
                  ledgerSum st u := rfl
              rw [hls]
              have hne : (inv.investor_user_id == u) = false := by
                rw [beq_eq_false_iff_ne]
                exact fun hh => hu hh.symm
              simp [hne]
          · rw [if_neg (fun hc => hpp (of_decide_eq_true hc))] at h
            injection h with hpair
            injection hpair with h1 h2
            intro u
            rw [← h1]
            exact hInv u
      · rw [settle_investment_nonpending cfg st investment_id now inv hfind
          hnp] at h
        injection h with hpair
        injection hpair with h1 h2
        intro u
        rw [← h1]
        exact hInv u

theorem balance_invariant_preserved_witness :
    BalanceInvariant
      { posts := [⟨1, none, 9, none, 0, 0⟩, ⟨2, some 1, 10, none, 0, 1⟩],
        votes := [],
        balances := [⟨20, 0⟩],
        ledger := [⟨20, 0, "invest_stake", some 2, none⟩],
        investments := [⟨1, 20, 2, 1, 0, "pending", 12, none, none⟩],
        next_investment_id := 2 } :=
  balance_invariant_preserved.1 cfgZero exFreshState 20 2 0 5
    { posts := [⟨1, none, 9, none, 0, 0⟩, ⟨2, some 1, 10, none, 0, 1⟩],
      votes := [],
      balances := [⟨20, 0⟩],
      ledger := [⟨20, 0, "invest_stake", some 2, none⟩],
      investments := [⟨1, 20, 2, 1, 0, "pending", 12, none, none⟩],
      next_investment_id := 2 }
    ⟨20, 2, 1, 0, "pending", 12⟩ rfl (fun u => rfl)

end Hub

/-- C9: any failure inside `moderate_content` (a provider exception, or a
response whose text cannot be parsed as JSON — `_parse_json_safely` then
yields the empty dictionary) does not propagate to the caller: the result is
a `ModerationResult` with `action = "approve"` and `is_flagged = false`.
This silent default-to-success exists only in the moderation collaborator;
the ledger/investment core has none: an invest call against an insufficient
balance never returns success. -/
theorem moderation_defaults_to_approve_on_failure :
    (∀ msg, (Moderation.moderate_content
        (Moderation.GeminiOutcome.failure msg)).action = "approve" ∧
      (Moderation.moderate_content
        (Moderation.GeminiOutcome.failure msg)).is_flagged = false) ∧
    ((Moderation.moderate_content
        (Moderation.GeminiOutcome.response
          Moderation.JsonData.empty)).action = "approve" ∧
      (Moderation.moderate_content
        (Moderation.GeminiOutcome.response
          Moderation.JsonData.empty)).is_flagged = false) ∧
    (∀ (cfg : Hub.Config) (st : Hub.DBState)
        (investor_user_id comment_id : Nat) (amount : Int) (now : Nat)
        (st' : Hub.DBState) (s : Hub.InvestSummary),
        Hub.get_user_points_balance st investor_user_id < amount →
        Hub.invest_in_comment cfg st investor_user_id comment_id amount now ≠
          .ok (st', s)) := by
  refine ⟨fun msg => ⟨rfl, rfl⟩, ⟨rfl, rfl⟩, ?_⟩
  intro cfg st investor_user_id comment_id amount now st' s hb hok
  rw [Hub.invest_in_comment] at hok
  by_cases hmin : amount < cfg.INVEST_MIN_POINTS
  · rw [if_pos hmin] at hok
    exact absurd hok (by simp)
  · rw [if_neg hmin] at hok
    cases hrow : Hub.findPost st comment_id with
    | none => rw [hrow] at hok; exact absurd hok (by simp)
    | some row =>
      rw [hrow] at hok
      dsimp only at hok
      cases hpar : row.parent_id with
      | none => rw [hpar] at hok; exact absurd hok (by simp)
      | some parent_id =>
        rw [hpar] at hok
        dsimp only at hok
        by_cases hauth : row.user_id == investor_user_id
        · rw [if_pos hauth] at hok; exact absurd hok (by simp)
        · rw [if_neg hauth] at hok
          by_cases hmodb : Hub.moderatedAway row.moderation_status
          · rw [if_pos hmodb] at hok; exact absurd hok (by simp)
          · rw [if_neg hmodb] at hok
            rw [if_pos hb] at hok
            exact absurd hok (by simp)

theorem moderation_defaults_to_approve_on_failure_witness :
    Hub.invest_in_comment Hub.exCfg Hub.exState 22 3 30 9 ≠
      .ok (Hub.exState, ⟨22, 3, 1, 30, "pending", 16⟩) :=
  moderation_defaults_to_approve_on_failure.2.2 Hub.exCfg Hub.exState 22 3 30
    9 Hub.exState ⟨22, 3, 1, 30, "pending", 16⟩ (by decide)
